import Mathlib

/-!
# Verification of the baux-wiki rich-text block editor

Shallow embedding of the editor core of `src/components/PageContent.tsx`
together with the block API routes, and proofs of the specified properties.

HTML fragments manipulated through `innerHTML` / DOM node operations are
modelled as trees of nodes (`Node` / `NodeList`); the `innerHTML`
parse/serialize round trip is the identity on this representation.
Strings processed by regular-expression replacement are modelled as
`List Char`.
-/

namespace BauxWiki

/-! ## DOM tree model

An element node carries its tag name, its class token list (the DOM
`classList`), its remaining attributes (such as `data-wrap` and
`data-file-id`) and its children. -/

mutual

inductive Node where
  | text : String → Node
  | elem : String → List String → List (String × String) → NodeList → Node
deriving DecidableEq, Repr

inductive NodeList where
  | nil : NodeList
  | cons : Node → NodeList → NodeList
deriving DecidableEq, Repr

end

/-- `DOMTokenList.contains`: whether a class list holds a token. -/
def hasTok : List String → String → Bool
  | [], _ => false
  | c :: cs, a => c = a || hasTok cs a

/-- `DOMTokenList.remove`: delete every occurrence of a token. -/
def removeTok : List String → String → List String
  | [], _ => []
  | c :: cs, a => if c = a then removeTok cs a else c :: removeTok cs a

/-- A node matches the selector `.resize-handle` iff it is an element whose
class list contains the `resize-handle` token. -/
def isResizeHandle : Node → Bool
  | Node.text _ => false
  | Node.elem _ cls _ _ => hasTok cls "resize-handle"

/-- A node matches the selector `.inline-image` iff it is an element whose
class list contains the `inline-image` token. -/
def isInlineImage : Node → Bool
  | Node.text _ => false
  | Node.elem _ cls _ _ => hasTok cls "inline-image"

/-! ## Content Sanitizer — `cleanContentForSave` (PageContent.tsx:1098-1116)

```js
const cleanContentForSave = (html: string): string => {
  const temp = document.createElement('div')
  temp.innerHTML = html
  temp.querySelectorAll('.resize-handle').forEach(el => el.remove())
  temp.querySelectorAll('.inline-image.selected').forEach(el => {
    el.classList.remove('selected')
  })
  temp.querySelectorAll('.inline-image.dragging').forEach(el => {
    el.classList.remove('dragging')
  })
  return temp.innerHTML
}
```

On the tree representation: every element whose class list contains
`resize-handle` is removed (with its whole subtree); every remaining
element whose class list contains `inline-image` has the `selected` and
`dragging` tokens removed from its class list (`classList.remove` deletes
every occurrence of the token). -/

mutual

def cleanContentForSaveNode : Node → Node
  | Node.text s => Node.text s
  | Node.elem tag cls attrs children =>
      let cls' :=
        if hasTok cls "inline-image" then
          removeTok (removeTok cls "selected") "dragging"
        else cls
      Node.elem tag cls' attrs (cleanContentForSave children)

def cleanContentForSave : NodeList → NodeList
  | NodeList.nil => NodeList.nil
  | NodeList.cons n ns =>
      if isResizeHandle n then cleanContentForSave ns
      else NodeList.cons (cleanContentForSaveNode n) (cleanContentForSave ns)

end

/-! Observation functions used to state the sanitizer's contract.  They are
defined by their own recursion, independently of the sanitizer. -/

mutual

/-- No element in the tree carries the `resize-handle` class. -/
def noHandlesNode : Node → Bool
  | Node.text _ => true
  | Node.elem _ cls _ children =>
      !hasTok cls "resize-handle" && noHandlesList children

def noHandlesList : NodeList → Bool
  | NodeList.nil => true
  | NodeList.cons n ns => noHandlesNode n && noHandlesList ns

end

mutual

/-- No inline-image wrapper in the tree carries a `selected` or `dragging`
state class. -/
def noStateMarkersNode : Node → Bool
  | Node.text _ => true
  | Node.elem _ cls _ children =>
      (!hasTok cls "inline-image" ||
        (!hasTok cls "selected" && !hasTok cls "dragging")) &&
      noStateMarkersList children

def noStateMarkersList : NodeList → Bool
  | NodeList.nil => true
  | NodeList.cons n ns => noStateMarkersNode n && noStateMarkersList ns

end

mutual

/-- The concatenated text content of a tree. -/
def textContentNode : Node → String
  | Node.text s => s
  | Node.elem _ _ _ children => textContentList children

def textContentList : NodeList → String
  | NodeList.nil => ""
  | NodeList.cons n ns => textContentNode n ++ textContentList ns

end

mutual

/-- The concatenated text content of a tree, skipping the subtrees of
resize-handle marker elements (the editor-transient part of the markup). -/
def textOutsideHandlesNode : Node → String
  | Node.text s => s
  | Node.elem _ _ _ children => textOutsideHandlesList children

def textOutsideHandlesList : NodeList → String
  | NodeList.nil => ""
  | NodeList.cons n ns =>
      if isResizeHandle n then textOutsideHandlesList ns
      else textOutsideHandlesNode n ++ textOutsideHandlesList ns

end

mutual

/-- The tag and attribute list of every element in the tree, in document
order.  For inline-image wrappers the attributes include `data-wrap` and
`data-file-id`; for links they include `href`. -/
def elemSigsNode : Node → List (String × List (String × String))
  | Node.text _ => []
  | Node.elem tag _ attrs children => (tag, attrs) :: elemSigsList children

def elemSigsList : NodeList → List (String × List (String × String))
  | NodeList.nil => []
  | NodeList.cons n ns => elemSigsNode n ++ elemSigsList ns

end

mutual

/-- Tag and attributes of every element outside resize-handle subtrees. -/
def elemSigsOutsideHandlesNode : Node → List (String × List (String × String))
  | Node.text _ => []
  | Node.elem tag _ attrs children =>
      (tag, attrs) :: elemSigsOutsideHandlesList children

def elemSigsOutsideHandlesList : NodeList → List (String × List (String × String))
  | NodeList.nil => []
  | NodeList.cons n ns =>
      if isResizeHandle n then elemSigsOutsideHandlesList ns
      else elemSigsOutsideHandlesNode n ++ elemSigsOutsideHandlesList ns

end

/-! Token-list lemmas. -/

theorem hasTok_removeTok_of_ne (l : List String) (a b : String) (h : a ≠ b) :
    hasTok (removeTok l b) a = hasTok l a := by
  induction l with
  | nil => rfl
  | cons c cs ih =>
      by_cases hc : c = b
      · subst hc
        have hca : ¬ (c = a) := fun hca => h (hca ▸ rfl)
        simp only [removeTok, if_pos rfl, hasTok, hca, decide_False,
          Bool.false_or]
        exact ih
      · simp only [removeTok, if_neg hc, hasTok, ih]

theorem hasTok_removeTok_self (l : List String) (a : String) :
    hasTok (removeTok l a) a = false := by
  induction l with
  | nil => rfl
  | cons c cs ih =>
      by_cases hc : c = a
      · simp [removeTok, hc, ih]
      · simp [removeTok, hc, hasTok, ih]

theorem removeTok_removeTok_self (l : List String) (a : String) :
    removeTok (removeTok l a) a = removeTok l a := by
  induction l with
  | nil => rfl
  | cons c cs ih =>
      by_cases hc : c = a
      · simp [removeTok, hc, ih]
      · simp [removeTok, hc, ih]

theorem removeTok_comm (l : List String) (a b : String) :
    removeTok (removeTok l a) b = removeTok (removeTok l b) a := by
  induction l with
  | nil => rfl
  | cons c cs ih =>
      by_cases hca : c = a
      · by_cases hcb : c = b
        · simp only [removeTok, if_pos hca, if_pos hcb]
          exact ih
        · simp only [removeTok, if_pos hca, if_neg hcb, if_pos hca]
          exact ih
      · by_cases hcb : c = b
        · simp only [removeTok, if_neg hca, if_pos hcb, if_pos hcb]
          exact ih
        · simp only [removeTok, if_neg hca, if_neg hcb, if_neg hcb, if_neg hca, ih]

/-- Stripping `selected` then `dragging` is an idempotent class-list map. -/
theorem strip_state_idem (cls : List String) :
    removeTok (removeTok (removeTok (removeTok cls "selected") "dragging")
        "selected") "dragging" =
      removeTok (removeTok cls "selected") "dragging" := by
  rw [removeTok_comm (removeTok cls "selected") "dragging" "selected",
    removeTok_removeTok_self, removeTok_removeTok_self]

/-! Mutual induction over the DOM tree. -/

theorem node_mutual_ind (P : Node → Prop) (Q : NodeList → Prop)
    (ht : ∀ s, P (Node.text s))
    (he : ∀ tag cls attrs children, Q children → P (Node.elem tag cls attrs children))
    (hn : Q NodeList.nil)
    (hc : ∀ n ns, P n → Q ns → Q (NodeList.cons n ns)) :
    (∀ n, P n) ∧ (∀ ns, Q ns) :=
  ⟨fun n => Node.rec ht he hn hc n, fun ns => NodeList.rec ht he hn hc ns⟩

/-! The class list produced by the sanitizer on an element. -/

theorem clean_cls_hasTok_other (cls : List String) (a : String)
    (ha1 : a ≠ "selected") (ha2 : a ≠ "dragging") :
    hasTok (if hasTok cls "inline-image" then
      removeTok (removeTok cls "selected") "dragging" else cls) a = hasTok cls a := by
  by_cases h : hasTok cls "inline-image" = true
  · simp [h, hasTok_removeTok_of_ne _ _ _ ha2, hasTok_removeTok_of_ne _ _ _ ha1]
  · simp [h]

/-! Sanitizer guarantees, proved by mutual induction. -/

theorem clean_noHandles :
    (∀ n, isResizeHandle n = false → noHandlesNode (cleanContentForSaveNode n) = true) ∧
    (∀ ns, noHandlesList (cleanContentForSave ns) = true) := by
  apply node_mutual_ind
  · intro s _
    rfl
  · intro tag cls attrs children ih hnh
    simp only [isResizeHandle] at hnh
    simp only [cleanContentForSaveNode, noHandlesNode, ih, Bool.and_true]
    rw [clean_cls_hasTok_other cls _ (by decide) (by decide), hnh]
    rfl
  · rfl
  · intro n ns ihn ihns
    simp only [cleanContentForSave]
    by_cases h : isResizeHandle n = true
    · simp [h, ihns]
    · have h' : isResizeHandle n = false := by
        cases hb : isResizeHandle n
        · rfl
        · exact absurd hb h
      simp [h', noHandlesList, ihn h', ihns]

theorem clean_noStateMarkers :
    (∀ n, noStateMarkersNode (cleanContentForSaveNode n) = true) ∧
    (∀ ns, noStateMarkersList (cleanContentForSave ns) = true) := by
  apply node_mutual_ind
  · intro s
    rfl
  · intro tag cls attrs children ih
    simp only [cleanContentForSaveNode, noStateMarkersNode, ih, Bool.and_true]
    by_cases h : hasTok cls "inline-image" = true
    · simp [h, hasTok_removeTok_self,
        hasTok_removeTok_of_ne _ "selected" "dragging" (by decide),
        hasTok_removeTok_of_ne _ "inline-image" "dragging" (by decide),
        hasTok_removeTok_of_ne _ "inline-image" "selected" (by decide)]
    · simp [h]
  · rfl
  · intro n ns ihn ihns
    simp only [cleanContentForSave]
    by_cases h : isResizeHandle n = true
    · simp [h, ihns]
    · simp [h, noStateMarkersList, ihn, ihns]

theorem clean_textContent :
    (∀ n, textContentNode (cleanContentForSaveNode n) = textOutsideHandlesNode n) ∧
    (∀ ns, textContentList (cleanContentForSave ns) = textOutsideHandlesList ns) := by
  apply node_mutual_ind
  · intro s
    rfl
  · intro tag cls attrs children ih
    simpa [cleanContentForSaveNode, textContentNode, textOutsideHandlesNode] using ih
  · rfl
  · intro n ns ihn ihns
    simp only [cleanContentForSave, textOutsideHandlesList]
    by_cases h : isResizeHandle n = true
    · simp [h, ihns]
    · simp [h, textContentList, ihn, ihns]

theorem clean_elemSigs :
    (∀ n, elemSigsNode (cleanContentForSaveNode n) = elemSigsOutsideHandlesNode n) ∧
    (∀ ns, elemSigsList (cleanContentForSave ns) = elemSigsOutsideHandlesList ns) := by
  apply node_mutual_ind
  · intro s
    rfl
  · intro tag cls attrs children ih
    simpa [cleanContentForSaveNode, elemSigsNode, elemSigsOutsideHandlesNode] using ih
  · rfl
  · intro n ns ihn ihns
    simp only [cleanContentForSave, elemSigsOutsideHandlesList]
    by_cases h : isResizeHandle n = true
    · simp [h, ihns]
    · simp [h, elemSigsList, ihn, ihns]

theorem clean_idem :
    (∀ n, cleanContentForSaveNode (cleanContentForSaveNode n) = cleanContentForSaveNode n ∧
      isResizeHandle (cleanContentForSaveNode n) = isResizeHandle n) ∧
    (∀ ns, cleanContentForSave (cleanContentForSave ns) = cleanContentForSave ns) := by
  apply node_mutual_ind
  · intro s
    exact ⟨rfl, rfl⟩
  · intro tag cls attrs children ih
    constructor
    · simp only [cleanContentForSaveNode, ih]
      rw [clean_cls_hasTok_other cls "inline-image" (by decide) (by decide)]
      cases h : hasTok cls "inline-image"
      · simp [h]
      · simp [h, strip_state_idem]
    · simp only [cleanContentForSaveNode, isResizeHandle]
      exact clean_cls_hasTok_other cls _ (by decide) (by decide)
  · exact rfl
  · intro n ns ihn ihns
    simp only [cleanContentForSave]
    by_cases h : isResizeHandle n = true
    · simp [h, ihns]
    · have h' : isResizeHandle n = false := by
        cases hb : isResizeHandle n
        · rfl
        · exact absurd hb h
      simp [cleanContentForSave, h', ihn.2, ihn.1, ihns]

/-- C1: for every raw markup tree `x`, the sanitizer output
`cleanContentForSave x` contains no resize-handle marker elements and no
`selected`/`dragging` state markers on inline-image wrappers, while all
semantic content outside the removed handle markers is preserved: the text
content, and the tag plus attribute list (including `data-wrap`,
`data-file-id` on image wrappers and `href` on links) of every element. -/
theorem cleanContentForSave_contract (x : NodeList) :
    noHandlesList (cleanContentForSave x) = true ∧
    noStateMarkersList (cleanContentForSave x) = true ∧
    textContentList (cleanContentForSave x) = textOutsideHandlesList x ∧
    elemSigsList (cleanContentForSave x) = elemSigsOutsideHandlesList x :=
  ⟨clean_noHandles.2 x, clean_noStateMarkers.2 x, clean_textContent.2 x,
    clean_elemSigs.2 x⟩

/-- C2: the sanitizer is idempotent — for every input tree `x`,
`cleanContentForSave (cleanContentForSave x) = cleanContentForSave x`. -/
theorem cleanContentForSave_idempotent (x : NodeList) :
    cleanContentForSave (cleanContentForSave x) = cleanContentForSave x :=
  clean_idem.2 x

/-! ## Inline image resize — `handleResizeStart` (PageContent.tsx:850-906)
and the identical editor mousedown resize path (PageContent.tsx:1018-1047)

```js
const deltaX = moveEvent.clientX - startX
const deltaY = moveEvent.clientY - startY
let newWidth = startWidth
let newHeight = startHeight
if (handle.includes('e')) newWidth = startWidth + deltaX
if (handle.includes('w')) newWidth = startWidth - deltaX
if (handle.includes('s')) newHeight = startHeight + deltaY
if (handle.includes('n')) newHeight = startHeight - deltaY
if (handle.length === 2) {
  if (Math.abs(deltaX) > Math.abs(deltaY)) { newHeight = newWidth / aspectRatio }
  else { newWidth = newHeight * aspectRatio }
}
newWidth = Math.max(50, newWidth)
newHeight = Math.max(50, newHeight)
```
with `aspectRatio = startWidth / startHeight`.  Coordinates are modelled as
rationals. -/

def resizeOnMouseMove (handle : List Char) (startWidth startHeight deltaX deltaY : ℚ) :
    ℚ × ℚ :=
  let aspectRatio := startWidth / startHeight
  let w1 := if handle.contains 'e' then startWidth + deltaX else startWidth
  let w2 := if handle.contains 'w' then startWidth - deltaX else w1
  let h1 := if handle.contains 's' then startHeight + deltaY else startHeight
  let h2 := if handle.contains 'n' then startHeight - deltaY else h1
  let wh :=
    if handle.length = 2 then
      if |deltaX| > |deltaY| then (w2, w2 / aspectRatio)
      else (h2 * aspectRatio, h2)
    else (w2, h2)
  (max 50 wh.1, max 50 wh.2)

/-- Clamping the width to 50 before halving does not change the clamped
half: the height the code computes from the unclamped width agrees with
`max 50 (width / 2)` stated on the clamped width. -/
theorem max50_half (w : ℚ) : max 50 (w / 2) = max 50 (max 50 w / 2) := by
  rcases le_total 50 w with h | h
  · rw [max_eq_right h]
  · rw [max_eq_left h]
    have h1 : w / 2 ≤ 50 := by linarith
    have h2 : (50 : ℚ) / 2 ≤ 50 := by norm_num
    rw [max_eq_left h1, max_eq_left h2]

/-- C4: resizing via a corner handle with start dimensions 200×100
(aspect ratio 2) and a horizontally dominated drag yields a height equal to
the (clamped) width divided by 2, clamped so neither dimension drops
below 50. -/
theorem resize_corner_preserves_ratio (handle : List Char) (deltaX deltaY : ℚ)
    (hcorner : handle.length = 2) (hdom : |deltaX| > |deltaY|) :
    (resizeOnMouseMove handle 200 100 deltaX deltaY).2 =
      max 50 ((resizeOnMouseMove handle 200 100 deltaX deltaY).1 / 2) ∧
    50 ≤ (resizeOnMouseMove handle 200 100 deltaX deltaY).1 ∧
    50 ≤ (resizeOnMouseMove handle 200 100 deltaX deltaY).2 := by
  unfold resizeOnMouseMove
  simp only [hcorner, if_pos, hdom, if_true]
  refine ⟨?_, le_max_left _ _, le_max_left _ _⟩
  have h2 : (200 : ℚ) / 100 = 2 := by norm_num
  rw [h2]
  exact max50_half _

/-- Concrete run of the corner-resize theorem: a south-east drag of
(+100, 0) on a 200×100 image gives 300×150. -/
theorem resize_corner_preserves_ratio_witness :
    (resizeOnMouseMove ['s', 'e'] 200 100 100 0).2 =
      max 50 ((resizeOnMouseMove ['s', 'e'] 200 100 100 0).1 / 2) ∧
    50 ≤ (resizeOnMouseMove ['s', 'e'] 200 100 100 0).1 ∧
    50 ≤ (resizeOnMouseMove ['s', 'e'] 200 100 100 0).2 :=
  resize_corner_preserves_ratio ['s', 'e'] 100 0 rfl (by norm_num)

/-! ## Font-size readback — `getCurrentFontSize` (PageContent.tsx:334-369)

The DOM context of the resolved range is abstracted into: the parsed
`size` attribute of a surrounding `font[size]` tag when one exists, and
otherwise the computed font-size in pixels.  `none` models the case where
neither a live selection nor a saved range resolves. -/

structure SelectionContext where
  fontTagSize : Option Int
  computedPx : Int
deriving DecidableEq, Repr

def getCurrentFontSize : Option SelectionContext → Int
  | none => 3
  | some ctx =>
    match ctx.fontTagSize with
    | some s => s
    | none =>
        if ctx.computedPx ≤ 10 then 1
        else if ctx.computedPx ≤ 13 then 2
        else if ctx.computedPx ≤ 16 then 3
        else if ctx.computedPx ≤ 18 then 4
        else if ctx.computedPx ≤ 24 then 5
        else if ctx.computedPx ≤ 32 then 6
        else 7

/-- Modelled from the spec: the 1–7 ordinal table with breakpoints
≤10→1, ≤13→2, ≤16→3, ≤18→4, ≤24→5, ≤32→6, else 7. -/
def specFontScale (px : Int) : Int :=
  if px ≤ 10 then 1
  else if px ≤ 13 then 2
  else if px ≤ 16 then 3
  else if px ≤ 18 then 4
  else if px ≤ 24 then 5
  else if px ≤ 32 then 6
  else 7

/-- C5: the pixel-to-ordinal readback follows the fixed breakpoint table
for every pixel size, defaults to 3 when no range resolves, and maps the
sample inputs 9, 12, 15, 17, 20, 30, 40 to 1…7. -/
theorem getCurrentFontSize_breakpoints :
    (∀ px : Int, getCurrentFontSize (some ⟨none, px⟩) = specFontScale px) ∧
    getCurrentFontSize none = 3 ∧
    ([9, 12, 15, 17, 20, 30, 40] : List Int).map
        (fun px => getCurrentFontSize (some ⟨none, px⟩)) =
      [1, 2, 3, 4, 5, 6, 7] :=
  ⟨fun _ => rfl, rfl, by decide⟩

/-! ## Block records and page editing state -/

structure BlockRec where
  id : String
  documentId : String
  type : String
  content : String
  order : Int
deriving DecidableEq, Repr

structure PageState where
  blocks : List BlockRec
  editingBlockId : Option String
  editContent : String
deriving DecidableEq, Repr

/-- Outward-visible effects of a state-machine step: the browser
confirmation prompt and the HTTP requests the handlers issue. -/
inductive Effect where
  | confirmPrompt : Effect
  | deleteRequest : String → Effect
deriving DecidableEq, Repr

/-! ## Block deletion and cancel — `handleDeleteBlock`, `handleCancelEdit`
(PageContent.tsx:655-685)

```js
const handleCancelEdit = async (blockId) => {
  const block = page?.blocks.find(b => b.id === blockId)
  if (block && !block.content) { await handleDeleteBlock(blockId, false) }
  else { deselectImage(); setEditingBlockId(null) }
}
const handleDeleteBlock = async (blockId, confirm = true) => {
  if (confirm && !window.confirm('Delete this block?')) return
  ... DELETE /api/blocks/blockId; on ok: filter out the block, setEditingBlockId(null)
}
```

`userAccepts` is the answer `window.confirm` would return; the prompt is
only shown (the `confirmPrompt` effect) when the `confirm` flag is set.
The DELETE request is modelled as succeeding. -/

def handleDeleteBlock (st : PageState) (blockId : String)
    (confirm userAccepts : Bool) : PageState × List Effect :=
  if confirm && !userAccepts then (st, [Effect.confirmPrompt])
  else
    ({ blocks := st.blocks.filter (fun b => b.id ≠ blockId),
       editingBlockId := none, editContent := st.editContent },
     (if confirm then [Effect.confirmPrompt] else []) ++
       [Effect.deleteRequest blockId])

def handleCancelEdit (st : PageState) (blockId : String)
    (userAccepts : Bool) : PageState × List Effect :=
  match st.blocks.find? (fun b => b.id = blockId) with
  | some b =>
      if b.content = "" then handleDeleteBlock st blockId false userAccepts
      else ({ st with editingBlockId := none }, [])
  | none => ({ st with editingBlockId := none }, [])

/-- C8: cancelling edit on a block whose persisted content is empty
deletes it — a delete request and no confirmation prompt — while
cancelling on a block with non-empty persisted content leaves every
stored block untouched, clears the editing state and issues no request at
all. -/
theorem handleCancelEdit_spec (st : PageState) (blockId : String)
    (userAccepts : Bool) (b : BlockRec)
    (hfind : st.blocks.find? (fun x => x.id = blockId) = some b) :
    (b.content = "" →
      handleCancelEdit st blockId userAccepts =
        ({ blocks := st.blocks.filter (fun x => x.id ≠ blockId),
           editingBlockId := none, editContent := st.editContent },
         [Effect.deleteRequest blockId])) ∧
    (b.content ≠ "" →
      handleCancelEdit st blockId userAccepts =
        ({ st with editingBlockId := none }, [])) := by
  constructor
  · intro hempty
    simp [handleCancelEdit, hfind, hempty, handleDeleteBlock]
  · intro hne
    simp [handleCancelEdit, hfind, hne]

/-- Concrete run of the cancel-edit theorem: cancelling on an empty block
deletes it with no prompt; cancelling on a non-empty block keeps it. -/
theorem handleCancelEdit_spec_witness :
    handleCancelEdit
        ⟨[⟨"b1", "d1", "text", "", 0⟩], some "b1", "draft"⟩ "b1" false =
      (⟨[], none, "draft"⟩, [Effect.deleteRequest "b1"]) ∧
    handleCancelEdit
        ⟨[⟨"b2", "d1", "text", "<p>kept</p>", 0⟩], some "b2", "draft"⟩ "b2" false =
      (⟨[⟨"b2", "d1", "text", "<p>kept</p>", 0⟩], none, "draft"⟩, []) :=
  ⟨by
    have h := (handleCancelEdit_spec
      ⟨[⟨"b1", "d1", "text", "", 0⟩], some "b1", "draft"⟩ "b1" false
      ⟨"b1", "d1", "text", "", 0⟩ (by decide)).1 rfl
    simpa using h,
   by
    have h := (handleCancelEdit_spec
      ⟨[⟨"b2", "d1", "text", "<p>kept</p>", 0⟩], some "b2", "draft"⟩ "b2" false
      ⟨"b2", "d1", "text", "<p>kept</p>", 0⟩ (by decide)).2 (by decide)
    simpa using h⟩

/-! ## New text block creation — `handleAddTextBlock`
(PageContent.tsx:494-524) and `POST /api/blocks` (part_005)

The client sends `{documentId, type: 'text', content: '', order:
page.blocks.length}`; the route validates the body (`!documentId`,
`!type` — so the empty string is rejected there — and `content`/`order`
present) and creates a row with exactly those fields; the client then
appends the returned block and puts it in editing state with empty edit
content. -/

structure CreateReq where
  documentId : String
  type : String
  content : String
  order : Int
deriving DecidableEq, Repr

def handleAddTextBlockRequest (st : PageState) (pageId : String) : CreateReq :=
  { documentId := pageId, type := "text", content := "",
    order := (st.blocks.length : Int) }

/-- `POST /api/blocks` (part_005).  `none` models a JS `undefined` field. -/
def createBlockPost (documentId type content : Option String)
    (order : Option Int) (newId : String) : Except String BlockRec :=
  match documentId, type, content, order with
  | some d, some t, some c, some o =>
      if d = "" ∨ t = "" then
        Except.error "documentId, type, content, and order are required"
      else
        Except.ok { id := newId, documentId := d, type := t, content := c,
                    order := o }
  | _, _, _, _ =>
      Except.error "documentId, type, content, and order are required"

def handleAddTextBlock (st : PageState) (pageId newId : String) : PageState :=
  let req := handleAddTextBlockRequest st pageId
  match createBlockPost (some req.documentId) (some req.type)
      (some req.content) (some req.order) newId with
  | Except.ok nb =>
      { blocks := st.blocks ++ [nb], editingBlockId := some newId,
        editContent := "" }
  | Except.error _ => st

/-- C9: on a page with `N` blocks the create request carries
`order = N` and empty content, the server accepts it and stores exactly
those fields, and the new block is immediately in editing state with
empty edit content. -/
theorem handleAddTextBlock_spec (st : PageState) (pageId newId : String)
    (hpage : pageId ≠ "") :
    (handleAddTextBlockRequest st pageId).order = (st.blocks.length : Int) ∧
    (handleAddTextBlockRequest st pageId).content = "" ∧
    (handleAddTextBlockRequest st pageId).type = "text" ∧
    createBlockPost (some pageId) (some "text") (some "")
        (some (st.blocks.length : Int)) newId =
      Except.ok ⟨newId, pageId, "text", "", (st.blocks.length : Int)⟩ ∧
    handleAddTextBlock st pageId newId =
      { blocks := st.blocks ++ [⟨newId, pageId, "text", "", (st.blocks.length : Int)⟩],
        editingBlockId := some newId, editContent := "" } := by
  have hpost : createBlockPost (some pageId) (some "text") (some "")
      (some (st.blocks.length : Int)) newId =
      Except.ok ⟨newId, pageId, "text", "", (st.blocks.length : Int)⟩ := by
    simp [createBlockPost, hpage]
  refine ⟨rfl, rfl, rfl, hpost, ?_⟩
  simp [handleAddTextBlock, handleAddTextBlockRequest, hpost]

/-- Concrete run of the block-creation theorem on a page with two
existing blocks: the request has order 2 and the new block is editing. -/
theorem handleAddTextBlock_spec_witness :
    (handleAddTextBlockRequest
        ⟨[⟨"a", "p1", "text", "x", 0⟩, ⟨"b", "p1", "text", "y", 1⟩], none, ""⟩
        "p1").order = 2 ∧
    (handleAddTextBlock
        ⟨[⟨"a", "p1", "text", "x", 0⟩, ⟨"b", "p1", "text", "y", 1⟩], none, ""⟩
        "p1" "c").editingBlockId = some "c" := by
  have h := handleAddTextBlock_spec
    ⟨[⟨"a", "p1", "text", "x", 0⟩, ⟨"b", "p1", "text", "y", 1⟩], none, ""⟩
    "p1" "c" (by decide)
  exact ⟨h.1, by rw [h.2.2.2.2]⟩

/-! ## Block update — `PUT /api/blocks/[id]` (route.ts:5-45)

```js
const { content, type, order } = body
await prisma.contentBlock.update({ where: { id }, data: {
  ...(content !== undefined && { content }),
  ...(type !== undefined && { type }),
  ...(order !== undefined && { order }),
}})
```

`none` models a field absent (`undefined`) from the request body. -/

structure UpdateBody where
  content : Option String
  type : Option String
  order : Option Int
deriving DecidableEq, Repr

def putBlockUpdate (b : BlockRec) (body : UpdateBody) : BlockRec :=
  { b with
    content := body.content.getD b.content,
    type := body.type.getD b.type,
    order := body.order.getD b.order }

/-- C10: the block update is a partial update — each of `content`,
`type`, `order` that is absent from the body is left unchanged and each
present field takes the body's value, while `id` and `documentId` are
never modified. -/
theorem putBlockUpdate_partial (b : BlockRec) (body : UpdateBody) :
    (body.content = none → (putBlockUpdate b body).content = b.content) ∧
    (∀ c, body.content = some c → (putBlockUpdate b body).content = c) ∧
    (body.type = none → (putBlockUpdate b body).type = b.type) ∧
    (∀ t, body.type = some t → (putBlockUpdate b body).type = t) ∧
    (body.order = none → (putBlockUpdate b body).order = b.order) ∧
    (∀ o, body.order = some o → (putBlockUpdate b body).order = o) ∧
    (putBlockUpdate b body).id = b.id ∧
    (putBlockUpdate b body).documentId = b.documentId := by
  refine ⟨?_, ?_, ?_, ?_, ?_, ?_, rfl, rfl⟩ <;>
    first
      | (intro h; simp [putBlockUpdate, h])
      | (intro v h; simp [putBlockUpdate, h])

/-- Concrete run of the partial-update theorem: a body carrying only
`content` rewrites `content` and leaves `type` and `order` alone. -/
theorem putBlockUpdate_partial_witness :
    (putBlockUpdate ⟨"b1", "d1", "text", "old", 4⟩ ⟨some "new", none, none⟩).content
        = "new" ∧
    (putBlockUpdate ⟨"b1", "d1", "text", "old", 4⟩ ⟨some "new", none, none⟩).type
        = "text" ∧
    (putBlockUpdate ⟨"b1", "d1", "text", "old", 4⟩ ⟨some "new", none, none⟩).order
        = 4 := by
  have h := putBlockUpdate_partial ⟨"b1", "d1", "text", "old", 4⟩
    ⟨some "new", none, none⟩
  exact ⟨h.2.1 "new" rfl, h.2.2.1 rfl, h.2.2.2.2.1 rfl⟩

/-! ## Cross-reference navigation — `handleLinkClick`
(PageContent.tsx:184-220) combined with `handleNavigateToBlock`
(part_006:212-229)

For an intercepted same-origin link, the fragment (after the `#`) is
split on `':'`.  Two parts mean `pageId:blockId`: `handleNavigateToBlock`
scrolls in place when `pageId` is the currently loaded document and
otherwise switches documents with a pending scroll target.  One part of
length > 10 is treated as a block id on the current page and scrolled to
directly.  Anything else is left to the browser. -/

/-- JS `hash.split(':')` on a character list. -/
def splitColon : List Char → List (List Char)
  | [] => [[]]
  | c :: cs =>
      if c = ':' then [] :: splitColon cs
      else
        match splitColon cs with
        | [] => [[c]]
        | g :: gs => (c :: g) :: gs

inductive NavAction where
  | navigate : List Char → List Char → NavAction
  | scrollTo : List Char → NavAction
  | ignore : NavAction
deriving DecidableEq, Repr

/-- `navigate p b` = switch the loaded document to `p` with pending scroll
target `b`; `scrollTo b` = scroll-and-highlight `b` without changing the
loaded document; `ignore` = the click is not intercepted. -/
def handleLinkFragment (hash currentPageId : List Char) : NavAction :=
  match splitColon hash with
  | [p, b] =>
      if p = currentPageId then NavAction.scrollTo b
      else NavAction.navigate p b
  | [s] => if s.length > 10 then NavAction.scrollTo s else NavAction.ignore
  | _ => NavAction.ignore

theorem splitColon_no_colon (s : List Char) (h : ':' ∉ s) :
    splitColon s = [s] := by
  induction s with
  | nil => rfl
  | cons c cs ih =>
      have hc : ¬ (c = ':') := fun hc => h (hc ▸ List.mem_cons_self c cs)
      have hcs : ':' ∉ cs := fun hm => h (List.mem_cons_of_mem c hm)
      simp [splitColon, hc, ih hcs]

theorem splitColon_pair (p b : List Char) (hp : ':' ∉ p) (hb : ':' ∉ b) :
    splitColon (p ++ ':' :: b) = [p, b] := by
  induction p with
  | nil => simp [splitColon, splitColon_no_colon b hb]
  | cons c cs ih =>
      have hc : ¬ (c = ':') := fun hc => hp (hc ▸ List.mem_cons_self c cs)
      have hcs : ':' ∉ cs := fun hm => hp (List.mem_cons_of_mem c hm)
      simp [splitColon, hc, ih hcs]

/-- C6: a fragment `pageId:blockId` navigates cross-document with a
pending scroll target when `pageId` is not the loaded document and
scrolls in place when it is; a bare fragment without `':'` of length
greater than 10 is scrolled to directly as a same-page block id. -/
theorem handleLinkFragment_spec (p b cur : List Char)
    (hp : ':' ∉ p) (hb : ':' ∉ b) :
    (p ≠ cur →
      handleLinkFragment (p ++ ':' :: b) cur = NavAction.navigate p b) ∧
    (p = cur →
      handleLinkFragment (p ++ ':' :: b) cur = NavAction.scrollTo b) ∧
    (∀ s : List Char, ':' ∉ s → s.length > 10 →
      handleLinkFragment s cur = NavAction.scrollTo s) := by
  refine ⟨?_, ?_, ?_⟩
  · intro hne
    simp [handleLinkFragment, splitColon_pair p b hp hb, hne]
  · intro heq
    subst heq
    simp [handleLinkFragment, splitColon_pair p b hp hb]
  · intro s hs hlen
    simp [handleLinkFragment, splitColon_no_colon s hs, hlen]

/-- Concrete runs of the fragment-navigation theorem: the link
`#pageA:block123` from `pageB` navigates with pending scroll, the same
link from `pageA` scrolls in place, and a bare 14-character fragment
scrolls directly. -/
theorem handleLinkFragment_spec_witness :
    handleLinkFragment ("pageA".toList ++ ':' :: "block123".toList)
        "pageB".toList =
      NavAction.navigate "pageA".toList "block123".toList ∧
    handleLinkFragment ("pageA".toList ++ ':' :: "block123".toList)
        "pageA".toList =
      NavAction.scrollTo "block123".toList ∧
    handleLinkFragment "block123xyzabc".toList "pageA".toList =
      NavAction.scrollTo "block123xyzabc".toList :=
  ⟨(handleLinkFragment_spec "pageA".toList "block123".toList "pageB".toList
      (by decide) (by decide)).1 (by decide),
   (handleLinkFragment_spec "pageA".toList "block123".toList "pageA".toList
      (by decide) (by decide)).2.1 rfl,
   (handleLinkFragment_spec "pageA".toList "block123".toList "pageA".toList
      (by decide) (by decide)).2.2 "block123xyzabc".toList (by decide)
      (by decide)⟩

/-! ## Selection-marker stripping — `applyFloatingFormat`
(PageContent.tsx:417-423)

```js
const markerRegex = new RegExp(`<span\\s+id="baux-selection-marker"[^>]*>(.*?)</span>`, 'gs')
const cleanContent = content.replace(markerRegex, '$1')
```

The replacement is modelled literally: at each position, if the marker
open tag `<span\s+id="baux-selection-marker"[^>]*>` matches, the
non-greedy `(.*?)</span>` captures everything up to the *first* following
`</span>` (dot-all), the match is replaced by the capture, and scanning
resumes after it.  Matching of literal letters is case-insensitive
(although the regex is built without the `i` flag in the source, the
serializer emits lowercase tags, so case never matters; the model keeps
exact character comparison for the letters via `Char.toLower` equality to
mirror a case-insensitive engine conservatively — both agree on the
inputs below). -/

/-- ASCII whitespace for the regex class `\s`. -/
def isSpaceChar (c : Char) : Bool :=
  c = ' ' || c = '\t' || c = '\n' || c = '\r' || c = '\x0b' || c = '\x0c'

/-- Match a literal, case-insensitively on letters; returns the rest. -/
def dropLitCI : List Char → List Char → Option (List Char)
  | [], s => some s
  | _ :: _, [] => none
  | c :: cs, d :: ds => if d.toLower = c.toLower then dropLitCI cs ds else none

/-- Match `<span\s+id="baux-selection-marker"[^>]*>` at the head; returns
the remainder after the open tag. -/
def matchMarkerOpen (s : List Char) : Option (List Char) :=
  match dropLitCI "<span".toList s with
  | none => none
  | some r1 =>
      match r1 with
      | [] => none
      | c :: r2 =>
          if isSpaceChar c then
            match dropLitCI "id=\"baux-selection-marker\"".toList
                (r2.dropWhile isSpaceChar) with
            | none => none
            | some r4 =>
                match r4.dropWhile (fun d => d ≠ '>') with
                | '>' :: r5 => some r5
                | _ => none
          else none

/-- Non-greedy `(.*?)</span>`: capture up to the first `</span>`, return
the capture and the remainder after the close tag. -/
def findFirstClose : List Char → Option (List Char × List Char)
  | [] => none
  | c :: cs =>
      match dropLitCI "</span>".toList (c :: cs) with
      | some r => some ([], r)
      | none =>
          match findFirstClose cs with
          | some (inner, r) => some (c :: inner, r)
          | none => none

/-- One global-replace pass, fuelled by the input length (each step
consumes at least one character). -/
def stripMarkerGo : Nat → List Char → List Char
  | 0, s => s
  | _ + 1, [] => []
  | fuel + 1, c :: cs =>
      match matchMarkerOpen (c :: cs) with
      | some afterOpen =>
          match findFirstClose afterOpen with
          | some (inner, rest) => inner ++ stripMarkerGo fuel rest
          | none => c :: stripMarkerGo fuel cs
      | none => c :: stripMarkerGo fuel cs

/-- `content.replace(markerRegex, '$1')`. -/
def stripSelectionMarker (s : List Char) : List Char :=
  stripMarkerGo s.length s

/-- C3 (failing input): after a `hiliteColor`-style command wraps part of
the selection in a nested styled span, stripping the selection marker
does NOT merely delete the marker's open and close tags — the trailing
payload character `b` is pulled inside the nested styled span, because
the non-greedy `(.*?)</span>` stops at the *inner* `</span>`.  The
correct removal would yield `<span style="color:red">a</span>b`. -/
theorem stripSelectionMarker_nested_close_bug :
    stripSelectionMarker
        ("<span id=\"baux-selection-marker\"><span style=\"color:red\">a</span>b</span>".toList) =
      "<span style=\"color:red\">ab</span>".toList ∧
    ("<span style=\"color:red\">ab</span>".toList : List Char) ≠
      "<span style=\"color:red\">a</span>b".toList := by
  exact ⟨by decide, by decide⟩

/-! ## Auto-linkification — `linkifyContent` (PageContent.tsx:44-56)

```js
const urlRegex = /(?<!href=")(?<!>)(https?:\/\/[^\s<"]+)/gi
return html.replace(urlRegex, (url) => `<a href="${url}" target="_blank"
  rel="noopener noreferrer" class="text-blue-600 dark:text-blue-400
  hover:underline">${url}</a>`)
```

The scan is modelled position by position: at each position the two
negative lookbehinds inspect the already-consumed *input* characters
(`rev`, reversed); `https?` matches case-insensitively, then `://`, then
a maximal nonempty run of characters outside `\s`, `<`, `"`.  A match is
replaced by the anchor template and scanning resumes after the match. -/

/-- The character class `[^\s<"]` (negated). -/
def isUrlStopChar (c : Char) : Bool := isSpaceChar c || c = '<' || c = '"'

/-- `(?<!>)(?<!href=")` checked against the reversed consumed input. -/
def lookbehindBlocked (rev : List Char) : Bool :=
  (match rev with
   | '>' :: _ => true
   | _ => false) ||
  (match rev with
   | '"' :: '=' :: f :: e :: r :: h :: _ =>
       f.toLower = 'f' && e.toLower = 'e' && r.toLower = 'r' && h.toLower = 'h'
   | _ => false)

/-- Case-insensitive literal prefix test. -/
def literalAtCI : List Char → List Char → Bool
  | [], _ => true
  | _ :: _, [] => false
  | c :: cs, d :: ds => (d.toLower = c.toLower) && literalAtCI cs ds

/-- Length of `https?` at the head (after `http` has matched): 5 when an
`s`/`S` follows, else 4. -/
def urlSchemeLen (s : List Char) : Nat :=
  match (s.drop 4).head? with
  | some c => if c.toLower = 's' then 5 else 4
  | none => 4

theorem takeWhileLen_le (p : Char → Bool) (l : List Char) :
    (l.takeWhile p).length ≤ l.length := by
  induction l with
  | nil => simp [List.takeWhile]
  | cons c cs ih =>
      simp only [List.takeWhile]
      cases p c
      · simp
      · simpa using ih

/-- Length of the match of `https?:\/\/[^\s<"]+` at the head, if any:
the scheme, `://`, then a maximal nonempty run outside the stop class. -/
def urlMatchLen (s : List Char) : Option Nat :=
  if literalAtCI "http".toList s then
    if literalAtCI "://".toList (s.drop (urlSchemeLen s)) then
      match ((s.drop (urlSchemeLen s + 3)).takeWhile
          (fun c => !isUrlStopChar c)).length with
      | 0 => none
      | m + 1 => some (urlSchemeLen s + 3 + (m + 1))
    else none
  else none

/-- The anchor the replacement callback builds around a matched URL. -/
def anchorize (url : List Char) : List Char :=
  "<a href=\"".toList ++ url ++
    "\" target=\"_blank\" rel=\"noopener noreferrer\" class=\"text-blue-600 dark:text-blue-400 hover:underline\">".toList ++
    url ++ "</a>".toList

theorem urlMatchLen_bounds (s : List Char) (n : Nat)
    (h : urlMatchLen s = some n) : 0 < n ∧ n ≤ s.length := by
  unfold urlMatchLen at h
  split at h
  · split at h
    · split at h
      · exact absurd h (by simp)
      · rename_i m hm
        have hn : n = urlSchemeLen s + 3 + (m + 1) :=
          (Option.some.injEq _ _ ▸ h).symm
        have hle : ((s.drop (urlSchemeLen s + 3)).takeWhile
            (fun c => !isUrlStopChar c)).length ≤
            (s.drop (urlSchemeLen s + 3)).length :=
          takeWhileLen_le _ _
        rw [hm, List.length_drop] at hle
        omega
    · exact absurd h (by simp)
  · exact absurd h (by simp)

/-- The linkifier scan.  `rev` is the reversed consumed input, used by
the lookbehinds.  The fuel only bounds the number of scan steps; since
every step consumes at least one input character, `s.length` fuel always
suffices (`linkifyGo_fuel` below makes this precise). -/
def linkifyGo : Nat → List Char → List Char → List Char
  | 0, _, s => s
  | _ + 1, _, [] => []
  | fuel + 1, rev, c :: cs =>
      match urlMatchLen (c :: cs) with
      | some n =>
          if lookbehindBlocked rev then c :: linkifyGo fuel (c :: rev) cs
          else
            anchorize ((c :: cs).take n) ++
              linkifyGo fuel (((c :: cs).take n).reverse ++ rev)
                ((c :: cs).drop n)
      | none => c :: linkifyGo fuel (c :: rev) cs

/-- `linkifyContent` (PageContent.tsx:44-56). -/
def linkifyContent (html : List Char) : List Char :=
  linkifyGo html.length [] html

/-- Exact (case-sensitive) literal prefix test. -/
def beginsWith : List Char → List Char → Bool
  | [], _ => true
  | _ :: _, [] => false
  | c :: cs, d :: ds => c = d && beginsWith cs ds

/-- Contiguous-substring test. -/
def hasSub (pat s : List Char) : Bool :=
  match s with
  | [] => beginsWith pat []
  | _ :: cs => beginsWith pat s || hasSub pat cs

/-! Scan lemmas for the linkifier. -/

/-- Fuel irrelevance: any fuel at least the input length gives the same
scan result. -/
theorem linkifyGo_fuel (fuel₁ : Nat) : ∀ fuel₂ rev s,
    s.length ≤ fuel₁ → s.length ≤ fuel₂ →
    linkifyGo fuel₁ rev s = linkifyGo fuel₂ rev s := by
  induction fuel₁ with
  | zero =>
      intro fuel₂ rev s h₁ _
      have hs : s = [] := List.length_eq_zero.mp (Nat.le_zero.mp h₁)
      subst hs
      cases fuel₂ <;> rfl
  | succ f ih =>
      intro fuel₂ rev s h₁ h₂
      cases s with
      | nil => cases fuel₂ <;> rfl
      | cons c cs =>
          cases fuel₂ with
          | zero => simp at h₂
          | succ f₂ =>
              simp only [linkifyGo]
              cases hm : urlMatchLen (c :: cs) with
              | none =>
                  simp only [List.length_cons] at h₁ h₂
                  rw [ih f₂ (c :: rev) cs (by omega) (by omega)]
              | some n =>
                  have hb := urlMatchLen_bounds _ _ hm
                  simp only [List.length_cons] at h₁ h₂
                  cases hbl : lookbehindBlocked rev
                  · simp only [Bool.false_eq_true, if_false]
                    rw [ih f₂ _ ((c :: cs).drop n)
                      (by simp only [List.length_drop, List.length_cons]; omega)
                      (by simp only [List.length_drop, List.length_cons]; omega)]
                  · simp only [if_true]
                    rw [ih f₂ (c :: rev) cs (by omega) (by omega)]

/-- One scan step on a position where the pattern does not match. -/
theorem linkifyGo_step_none (fuel : Nat) (rev c cs)
    (h : urlMatchLen (c :: cs) = none) :
    linkifyGo (fuel + 1) rev (c :: cs) = c :: linkifyGo fuel (c :: rev) cs := by
  simp [linkifyGo, h]

/-- One scan step on a position where the pattern matches but a
lookbehind blocks it. -/
theorem linkifyGo_step_blocked (fuel : Nat) (rev c cs n)
    (h : urlMatchLen (c :: cs) = some n)
    (hb : lookbehindBlocked rev = true) :
    linkifyGo (fuel + 1) rev (c :: cs) = c :: linkifyGo fuel (c :: rev) cs := by
  simp [linkifyGo, h, hb]

/-- One scan step on an unblocked match: the URL is wrapped and scanning
resumes after it. -/
theorem linkifyGo_step_match (fuel : Nat) (rev c cs n)
    (h : urlMatchLen (c :: cs) = some n)
    (hb : lookbehindBlocked rev = false) :
    linkifyGo (fuel + 1) rev (c :: cs) =
      anchorize ((c :: cs).take n) ++
        linkifyGo fuel (((c :: cs).take n).reverse ++ rev) ((c :: cs).drop n) := by
  simp [linkifyGo, h, hb]

/-- `scanInert rev s t`: scanning through `s` (with `t` the rest of the
input and `rev` the reversed input already consumed), every position of
`s` is inert — either the pattern does not match there, or a negative
lookbehind blocks the match. -/
def scanInert : List Char → List Char → List Char → Bool
  | _, [], _ => true
  | rev, c :: cs, t =>
      ((urlMatchLen (c :: (cs ++ t))).isNone || lookbehindBlocked rev) &&
        scanInert (c :: rev) cs t

/-- Scanning an inert segment copies it verbatim and continues after it. -/
theorem linkifyGo_skip_inert (s : List Char) : ∀ fuel rev t,
    scanInert rev s t = true →
    linkifyGo (s.length + fuel) rev (s ++ t) =
      s ++ linkifyGo fuel (s.reverse ++ rev) t := by
  induction s with
  | nil => intro fuel rev t _; simp
  | cons c cs ih =>
      intro fuel rev t hsc
      simp only [scanInert, Bool.and_eq_true, Bool.or_eq_true,
        Option.isNone_iff_eq_none] at hsc
      have hlen : (c :: cs).length + fuel = (cs.length + fuel) + 1 := by
        simp only [List.length_cons]; omega
      rw [hlen]
      show linkifyGo ((cs.length + fuel) + 1) rev (c :: (cs ++ t)) = _
      rcases hsc with ⟨hhead, hrest⟩
      have hstep : linkifyGo ((cs.length + fuel) + 1) rev (c :: (cs ++ t)) =
          c :: linkifyGo (cs.length + fuel) (c :: rev) (cs ++ t) := by
        rcases hhead with hnone | hblock
        · exact linkifyGo_step_none _ _ _ _ hnone
        · cases hm : urlMatchLen (c :: (cs ++ t)) with
          | none => exact linkifyGo_step_none _ _ _ _ hm
          | some n => exact linkifyGo_step_blocked _ _ _ _ _ hm hblock
      rw [hstep, ih fuel (c :: rev) t hrest]
      simp [List.append_assoc]

/-- A fully inert input is scanned to itself. -/
theorem linkifyGo_inert_all (s rev : List Char)
    (h : scanInert rev s [] = true) : linkifyGo s.length rev s = s := by
  have hs := linkifyGo_skip_inert s 0 rev [] h
  simpa [linkifyGo] using hs

/-- The continuation after a URL run: empty input or a stop character. -/
def headStops : List Char → Bool
  | [] => true
  | c :: _ => isUrlStopChar c

theorem takeWhile_all_append (p : Char → Bool) (l r : List Char)
    (hl : ∀ c ∈ l, p c = true)
    (hr : match r with | [] => True | c :: _ => p c = false) :
    (l ++ r).takeWhile p = l := by
  induction l with
  | nil =>
      cases r with
      | nil => rfl
      | cons c cs =>
          have hrc : p c = false := hr
          simp [List.takeWhile, hrc]
  | cons c cs ih =>
      have hc := hl c (List.mem_cons_self c cs)
      simp [List.takeWhile, hc,
        ih (fun x hx => hl x (List.mem_cons_of_mem c hx))]

/-- At the start of `https://` followed by a nonempty run of non-stop
characters and then a stop boundary, the pattern matches exactly the
scheme plus the run. -/
theorem urlMatchLen_full (c0 : Char) (tl post : List Char)
    (hstop : ∀ c ∈ c0 :: tl, isUrlStopChar c = false)
    (hpost : headStops post = true) :
    urlMatchLen ("https://".toList ++ ((c0 :: tl) ++ post)) =
      some (("https://".toList ++ (c0 :: tl)).length) := by
  have htw : ((c0 :: tl) ++ post).takeWhile (fun c => !isUrlStopChar c) =
      c0 :: tl := by
    refine takeWhile_all_append _ _ _ (fun c hc => by simp [hstop c hc]) ?_
    cases post with
    | nil => trivial
    | cons p ps => simpa [headStops] using hpost
  have e1 : literalAtCI "http".toList
      ("https://".toList ++ ((c0 :: tl) ++ post)) = true := rfl
  have e2 : urlSchemeLen ("https://".toList ++ ((c0 :: tl) ++ post)) = 5 := rfl
  have e3 : literalAtCI "://".toList
      (("https://".toList ++ ((c0 :: tl) ++ post)).drop 5) = true := rfl
  have e4 : ("https://".toList ++ ((c0 :: tl) ++ post)).drop (5 + 3) =
      (c0 :: tl) ++ post := rfl
  unfold urlMatchLen
  rw [e1, if_pos rfl, e2, e3, if_pos rfl, e4, htw]
  show some (5 + 3 + (tl.length + 1)) = _
  have hlen8 : ("https://".toList ++ (c0 :: tl)).length = 8 + (tl.length + 1) := by
    rw [List.length_append, show ("https://".toList).length = 8 from rfl,
      List.length_cons]
  rw [hlen8]

/-- Universal wrapping step: in any surrounding content `pre`/`post` in
which the scan reaches the URL (`scanInert`) and no lookbehind blocks it,
the URL is wrapped in the anchor template and scanning continues after
it. -/
theorem linkify_wrap_aux (pre : List Char) (c0 : Char) (tl post : List Char)
    (hstop : ∀ c ∈ c0 :: tl, isUrlStopChar c = false)
    (hpost : headStops post = true)
    (hpre : scanInert [] pre
      (("https://".toList ++ (c0 :: tl)) ++ post) = true)
    (hnb : lookbehindBlocked pre.reverse = false) :
    linkifyContent (pre ++ ("https://".toList ++ (c0 :: tl)) ++ post) =
      pre ++ anchorize ("https://".toList ++ (c0 :: tl)) ++
        linkifyGo post.length
          (("https://".toList ++ (c0 :: tl)).reverse ++ pre.reverse) post := by
  have hn0 := urlMatchLen_full c0 tl post hstop hpost
  set tail := c0 :: tl with htaildef
  set url := "https://".toList ++ tail with hurldef
  unfold linkifyContent
  rw [List.append_assoc pre url post]
  rw [show (pre ++ (url ++ post)).length = pre.length + (url ++ post).length
    from List.length_append _ _]
  rw [linkifyGo_skip_inert pre ((url ++ post).length) [] (url ++ post) hpre]
  rw [List.append_nil pre.reverse]
  rw [List.append_assoc pre (anchorize url)
    (linkifyGo post.length (url.reverse ++ pre.reverse) post)]
  refine congrArg (pre ++ ·) ?_
  have hn : urlMatchLen (url ++ post) = some url.length := by
    rw [show url ++ post = "https://".toList ++ (tail ++ post) from by
      simp [hurldef, List.append_assoc]]
    exact hn0
  rw [show (url ++ post).length =
      ('t' :: 't' :: 'p' :: 's' :: ':' :: '/' :: '/' :: (tail ++ post)).length + 1
    from rfl]
  rw [show url ++ post =
      'h' :: ('t' :: 't' :: 'p' :: 's' :: ':' :: '/' :: '/' :: (tail ++ post))
    from rfl] at hn ⊢
  rw [linkifyGo_step_match _ _ _ _ _ hn hnb]
  rw [show ('h' :: ('t' :: 't' :: 'p' :: 's' :: ':' :: '/' :: '/' ::
      (tail ++ post))) = url ++ post from rfl]
  rw [List.take_left, List.drop_left]
  refine congrArg (anchorize url ++ ·) ?_
  refine linkifyGo_fuel _ _ _ _ ?_ ?_
  · simp
    omega
  · omega

/-- Universal protection step: content whose every position is inert —
no match there, or a lookbehind (`(?<!>)`, `(?<!href=")`) blocks it — is
returned entirely unchanged. -/
theorem linkify_inert_aux (s : List Char) (h : scanInert [] s [] = true) :
    linkifyContent s = s := by
  unfold linkifyContent
  exact linkifyGo_inert_all s [] h

/-- C7 (counterexample): the plain URL in `<p>https://example.com</p>` is
not inside any anchor, yet `linkifyContent` leaves the content unchanged
— the `(?<!>)` lookbehind also suppresses any URL that immediately
follows a tag boundary `>`. -/
theorem linkifyContent_counterexample :
    linkifyContent ("<p>https://example.com</p>".toList) =
      "<p>https://example.com</p>".toList ∧
    hasSub "https://".toList "<p>https://example.com</p>".toList = true ∧
    hasSub "<a".toList "<p>https://example.com</p>".toList = false :=
  ⟨by decide, by decide, by decide⟩

/-- C7 (amended): each plain http(s) URL that the scan reaches — every
earlier position of the content either matches no URL or is blocked by a
lookbehind (`scanInert`) — and that is not itself immediately preceded by
`>` or by `href="` is wrapped in an anchor opening in a new browsing
context with noopener/noreferrer semantics, and scanning continues after
the wrapped URL; while content whose every position is non-matching or
lookbehind-blocked — in particular markup whose only URL sits inside an
existing anchor's `href="…"` attribute — is returned entirely unchanged,
so such a URL is not wrapped again. -/
theorem linkifyContent_amended :
    (∀ (pre : List Char) (c0 : Char) (tl post : List Char),
      (∀ c ∈ c0 :: tl, isUrlStopChar c = false) →
      headStops post = true →
      scanInert [] pre (("https://".toList ++ (c0 :: tl)) ++ post) = true →
      lookbehindBlocked pre.reverse = false →
      linkifyContent (pre ++ ("https://".toList ++ (c0 :: tl)) ++ post) =
        pre ++ anchorize ("https://".toList ++ (c0 :: tl)) ++
          linkifyGo post.length
            (("https://".toList ++ (c0 :: tl)).reverse ++ pre.reverse) post) ∧
    (∀ s : List Char, scanInert [] s [] = true → linkifyContent s = s) :=
  ⟨fun pre c0 tl post h1 h2 h3 h4 =>
      linkify_wrap_aux pre c0 tl post h1 h2 h3 h4,
   fun s h => linkify_inert_aux s h⟩

/-- Concrete run of the amended linkify theorem: the URL
`https://github.com/a` (an ordinary URL whose body contains `h`) is
wrapped when it follows plain text, and the markup
`<a href="https://github.com/a">site</a>` is left unchanged. -/
theorem linkifyContent_amended_witness :
    linkifyContent ("see ".toList ++
        ("https://".toList ++ ('g' :: "ithub.com/a".toList)) ++
        " end".toList) =
      "see ".toList ++
        anchorize ("https://".toList ++ ('g' :: "ithub.com/a".toList)) ++
        linkifyGo " end".toList.length
          (("https://".toList ++ ('g' :: "ithub.com/a".toList)).reverse ++
            "see ".toList.reverse) " end".toList ∧
    linkifyContent "<a href=\"https://github.com/a\">site</a>".toList =
      "<a href=\"https://github.com/a\">site</a>".toList :=
  ⟨linkifyContent_amended.1 "see ".toList 'g' "ithub.com/a".toList
      " end".toList (by decide) (by decide) (by decide) (by decide),
   linkifyContent_amended.2 _ (by decide)⟩

end BauxWiki
